import Mathlib

/-!
Verification development for the xpath-to-gNMI-Path parser of
cisco-gnmi-python (src/cisco_gnmi/client.py, function
Client.parse_xpath_to_gnmi_path), together with the tokenizer it uses,
xml.etree.ElementPath.xpath_tokenizer_re:

  ('[^']*'|"[^"]*"|::|//?|\.\.|\(\)|!=|[/.*:\[\]\(\)@=])|((?:\{[^}]+\})?[^/\[\]\(\)@!=\s]+)|\s+

A token is the pair of the two capture groups, exactly as returned by
re.findall: group 1 holds delimiters, quoted literals and the two-character
operators; group 2 holds bare text runs; a whitespace-only match yields a
token with both components empty.  Characters that no alternative can match
(a lone '!') are skipped by findall.
-/

set_option maxHeartbeats 1600000

namespace CiscoGnmi

/-- A token as produced by re.findall on xpath_tokenizer_re: the pair
(group 1, group 2). -/
abbrev Token := String × String

/-- ASCII whitespace recognised by the regex class \s.  (Python's re on str
is Unicode-aware; the embedding restricts to the ASCII whitespace characters,
which covers every input below.) -/
def isPySpace (c : Char) : Bool :=
  c = ' ' ∨ c = '\t' ∨ c = '\n' ∨ c = '\r' ∨ c = '\x0b' ∨ c = '\x0c'

/-- Membership in the bare-text character class of group 2 of the regex,
[^/\[\]\(\)@!=\s], as a proposition. -/
def textCharP (c : Char) : Prop :=
  ¬(c = '/' ∨ c = '[' ∨ c = ']' ∨ c = '(' ∨ c = ')' ∨ c = '@' ∨ c = '!' ∨
    c = '=' ∨ isPySpace c = true)

instance (c : Char) : Decidable (textCharP c) := by
  unfold textCharP; infer_instance

/-- Membership in the bare-text character class, as a Bool for takeWhile. -/
def textChar (c : Char) : Bool := decide (textCharP c)

/-- One scanning step of re.findall on xpath_tokenizer_re, with explicit
fuel (every step consumes at least one character, so fuel = length + 1
suffices; see xpathTokenize).  The branch order mirrors the alternation
order of the regex: quoted literals, '::', '//' or '/', '..', '()', '!=',
the single-character delimiter class [/.*:\[\]\(\)@=], then the text
alternative (with its optional brace prefix), then whitespace, and finally
findall skipping a character no alternative matches. -/
def tokGo : Nat → List Char → List Token
  | 0, _ => []
  | _ + 1, [] => []
  | fuel + 1, c :: rest =>
    if c = '\'' ∨ c = '"' then
      match rest.dropWhile (fun d => d != c) with
      | _ :: rest2 =>
        (String.mk (c :: rest.takeWhile (fun d => d != c) ++ [c]), "") ::
          tokGo fuel rest2
      | [] =>
        -- no closing quote: the quote alternative fails and the text
        -- alternative matches (quote characters are in the text class)
        ("", String.mk (c :: rest.takeWhile textChar)) ::
          tokGo fuel (rest.dropWhile textChar)
    else if c = ':' then
      match rest with
      | d :: rest2 =>
        if d = ':' then ("::", "") :: tokGo fuel rest2
        else (":", "") :: tokGo fuel (d :: rest2)
      | [] => (":", "") :: tokGo fuel []
    else if c = '/' then
      match rest with
      | d :: rest2 =>
        if d = '/' then ("//", "") :: tokGo fuel rest2
        else ("/", "") :: tokGo fuel (d :: rest2)
      | [] => ("/", "") :: tokGo fuel []
    else if c = '.' then
      match rest with
      | d :: rest2 =>
        if d = '.' then ("..", "") :: tokGo fuel rest2
        else (".", "") :: tokGo fuel (d :: rest2)
      | [] => (".", "") :: tokGo fuel []
    else if c = '(' then
      match rest with
      | d :: rest2 =>
        if d = ')' then ("()", "") :: tokGo fuel rest2
        else ("(", "") :: tokGo fuel (d :: rest2)
      | [] => ("(", "") :: tokGo fuel []
    else if c = '!' then
      match rest with
      | d :: rest2 =>
        if d = '=' then ("!=", "") :: tokGo fuel rest2
        else tokGo fuel (d :: rest2)   -- a lone '!' matches no alternative
      | [] => tokGo fuel []
    else if c = '*' ∨ c = '[' ∨ c = ']' ∨ c = ')' ∨ c = '@' ∨ c = '=' then
      (String.mk [c], "") :: tokGo fuel rest
    else if c = '{' then
      -- optional prefix (?:\{[^}]+\})? of the text alternative; the first
      -- element surviving dropWhile, when any, is the needle '}' itself
      match rest.dropWhile (fun d => d != '}') with
      | d :: after =>
        if d = '}' ∧ rest.takeWhile (fun x => x != '}') ≠ [] ∧
            after.takeWhile textChar ≠ [] then
          ("", String.mk ('{' :: rest.takeWhile (fun x => x != '}') ++
              '}' :: after.takeWhile textChar)) ::
            tokGo fuel (after.dropWhile textChar)
        else
          ("", String.mk (c :: rest.takeWhile textChar)) ::
            tokGo fuel (rest.dropWhile textChar)
      | [] =>
        ("", String.mk (c :: rest.takeWhile textChar)) ::
          tokGo fuel (rest.dropWhile textChar)
    else if textChar c then
      ("", String.mk (c :: rest.takeWhile textChar)) ::
        tokGo fuel (rest.dropWhile textChar)
    else if isPySpace c then
      ("", "") :: tokGo fuel (rest.dropWhile isPySpace)
    else
      tokGo fuel rest

/-- xpath_tokenizer_re.findall: every scanning step consumes at least one
character, so length + 1 fuel always suffices. -/
def xpathTokenize (cs : List Char) : List Token := tokGo (cs.length + 1) cs

/-- The taxonomy of parse failures; each constructor names one raise site of
parse_xpath_to_gnmi_path. -/
inductive ParseError where
  /-- raise Exception("xpath must be a string!") or
  raise Exception("origin must be a string!") -/
  | InvalidInput
  /-- raise Exception("Current PathElem has no name yet is trying to be
  pushed to path! Invalid XPath?") -/
  | IncompleteElement
  /-- raise Exception("Only = supported as filter operand!") -/
  | UnsupportedOperator
  /-- raise Exception("Key already in key map!") -/
  | DuplicateKey
  /-- raise Exception("Hanging key filter! Incomplete XPath?") -/
  | HangingKeyFilter
  /-- raise Exception("Unfinished elements in XPath parsing!") -/
  | UnterminatedXPath
deriving DecidableEq, Repr

/-- proto.gnmi_pb2.PathElem: a name and a key map.  The map is kept as an
association list in insertion order; the code only ever appends fresh keys
(a duplicate raises), so the list never carries two entries with one name. -/
structure PathElem where
  name : String
  key : List (String × String)
deriving DecidableEq, Repr

/-- proto.gnmi_pb2.Path: optional origin and the ordered elements. -/
structure GnmiPath where
  origin : Option String
  elem : List PathElem
deriving DecidableEq, Repr

/-- The loop state of parse_xpath_to_gnmi_path: accumulated path.elem,
curr_elem, in_filter, just_filtered and curr_key. -/
structure PState where
  elems : List PathElem
  curr : PathElem
  in_filter : Bool
  just_filtered : Bool
  curr_key : Option String
deriving DecidableEq, Repr

/-- The initial loop state: empty path, fresh PathElem, all flags clear. -/
def initState : PState := ⟨[], ⟨"", []⟩, false, false, Option.none⟩

/-- Python str.strip(chars): remove leading and trailing characters drawn
from the set. -/
def pyStrip (bad : Char → Bool) (s : List Char) : List Char :=
  ((s.dropWhile bad).reverse.dropWhile bad).reverse

/-- element[0].strip("'\"") as applied to a key value. -/
def stripQuotes (s : String) : String :=
  String.mk (pyStrip (fun c => c = '\'' ∨ c = '"') s.data)

/-- xpath.strip("/") applied before tokenizing. -/
def stripSlashes (s : String) : String :=
  String.mk (pyStrip (fun c => c = '/') s.data)

/-- One iteration of the for loop of parse_xpath_to_gnmi_path over one token
(d, t) = (element[0], element[1]).  The branch order mirrors the elif chain
of the source. -/
def step (s : PState) : Token → Except ParseError PState
  | (d, t) =>
    if d = "/" then
      -- completed element: push curr_elem unless it has no name
      if s.curr.name = "" then .error .IncompleteElement
      else .ok { s with elems := s.elems ++ [s.curr], curr := ⟨"", []⟩ }
    else if d = "[" then .ok { s with in_filter := true }
    else if d = "]" then .ok { s with in_filter := false }
    else if s.in_filter = false then
      -- outside a filter every remaining token sets curr_elem.name
      .ok { s with curr := { s.curr with name := t } }
    else if d = "" ∧ t = "" then .ok s
    else if s.just_filtered = true ∧ t = "and" then
      .ok { s with just_filtered := false }
    else
      match s.curr_key with
      | Option.none => .ok { s with curr_key := some t }
      | some k =>
        if d = ">" ∨ d = "<" then .error .UnsupportedOperator
        else if d = "=" then .ok s
        else if s.curr.key.any (fun p => p.1 = k) then .error .DuplicateKey
        else
          .ok { s with
                curr := { s.curr with key := s.curr.key ++ [(k, stripQuotes d)] },
                curr_key := Option.none,
                just_filtered := true }

/-- The whole for loop: fold step over the token list, aborting on the first
error. -/
def runTokens (s : PState) : List Token → Except ParseError PState
  | [] => .ok s
  | t :: ts =>
    match step s t with
    | .error e => .error e
    | .ok s2 => runTokens s2 ts

/-- Python truthiness of curr_key at the end of the loop: None and the empty
string are falsy. -/
def keyTruthy : Option String → Bool
  | Option.none => false
  | some k => k ≠ ""

/-- The code after the loop: 'if curr_key: raise', then 'if curr_elem:
path.elem.append(curr_elem)' (a protobuf message object is always truthy, so
the append is unconditional), then 'if any([curr_elem, curr_key, in_filter]):
raise' where curr_elem was just set to None and curr_key is falsy, leaving
only in_filter. -/
def finalize (s : PState) : Except ParseError (List PathElem) :=
  if keyTruthy s.curr_key then .error .HangingKeyFilter
  else if s.in_filter then .error .UnterminatedXPath
  else .ok (s.elems ++ [s.curr])

/-- A Python value as passed for the xpath and origin arguments, enough to
model the isinstance checks and truthiness tests of the source. -/
inductive PyValue where
  | str (s : String)
  | int (n : Int)
  | bool (b : Bool)
  | pyNone
deriving DecidableEq, Repr

/-- isinstance(v, string_types). -/
def PyValue.isStr : PyValue → Bool
  | .str _ => true
  | _ => false

/-- Python truthiness of the modelled values. -/
def PyValue.truthy : PyValue → Bool
  | .str s => s ≠ ""
  | .int n => n ≠ 0
  | .bool b => b
  | .pyNone => false

/-- The origin finally carried by the Path: 'path.origin = origin' runs
only under 'if origin:', so a falsy origin (None, 0, False, "") leaves the
field at its protobuf default, modelled as Option.none. -/
def originOf : PyValue → Option String
  | .str os => if os = "" then Option.none else some os
  | _ => Option.none

/-- The string-processing part of parse_xpath_to_gnmi_path: strip of
leading and trailing slashes, tokenizing, the loop, and the finalization;
the first raised error aborts and propagates. -/
def parseBody (xs : String) (og : Option String) :
    Except ParseError GnmiPath :=
  match runTokens initState (xpathTokenize (stripSlashes xs).data) with
  | .error e => .error e
  | .ok s =>
    match finalize s with
    | .error e => .error e
    | .ok es => .ok ⟨og, es⟩

/-- Client.parse_xpath_to_gnmi_path: type checks on xpath and origin, then
the string processing of parseBody. -/
def parse_xpath_to_gnmi_path (xpath origin : PyValue) :
    Except ParseError GnmiPath :=
  match xpath with
  | .str xs =>
    if origin.truthy = true ∧ origin.isStr = false then .error .InvalidInput
    else parseBody xs (originOf origin)
  | _ => .error .InvalidInput

/-- Parsing with the origin argument left at its default None. -/
def parseX (s : String) : Except ParseError GnmiPath :=
  parse_xpath_to_gnmi_path (.str s) .pyNone

end CiscoGnmi

namespace CiscoGnmi

/-!
Claim theorems.  Concrete parses are settled by kernel computation; the
universally quantified statements are proved against step, runTokens and
tokGo directly.
-/

/-- C1: the claim says parsing "interfaces/interface[name=eth0]/state"
stores the unquoted filter value "eth0" under key "name".  The code instead
stores the empty string: the value branch writes element[0].strip("'\""),
and element[0] (the delimiter/quoted-literal group) is empty for an
unquoted text token such as eth0, whose text sits in element[1].  This
theorem evaluates the code at the claim's input and exhibits the actual
result. -/
theorem C1_unquoted_value_dropped :
    parseX "interfaces/interface[name=eth0]/state" =
      .ok ⟨Option.none,
           [⟨"interfaces", []⟩, ⟨"interface", [("name", "")]⟩,
            ⟨"state", []⟩]⟩ := by
  rfl

/-- C3: the claim says an element with no name assigned is never appended
at end of input.  The code appends the in-progress element unconditionally
('if curr_elem:' is always true for a protobuf message object), so a bare
filter and the empty string both yield a successful parse whose (only)
element has an empty name. -/
theorem C3_empty_name_appended :
    parseX "[a='1']" = .ok ⟨Option.none, [⟨"", [("a", "1")]⟩]⟩ ∧
    parseX "" = .ok ⟨Option.none, [⟨"", []⟩]⟩ := by
  exact ⟨rfl, rfl⟩

/-- C4: the claim says "intf[a=1][b=2]" and "intf[a=1 and b=2]" both parse
to the single element with keys a to "1" and b to "2".  The two spellings do
parse to structurally equal Paths with one element named intf carrying keys
a and b, but both key values are "" rather than "1" and "2", because the
value branch stores the (empty) delimiter group of the unquoted value
token. -/
theorem C4_bracket_groups_equivalent :
    parseX "intf[a=1][b=2]" = parseX "intf[a=1 and b=2]" ∧
    parseX "intf[a=1][b=2]" =
      .ok ⟨Option.none, [⟨"intf", [("a", ""), ("b", "")]⟩]⟩ := by
  exact ⟨rfl, rfl⟩

/-- C8: parsing "intf[name='eth0']" strips the surrounding quote characters
from the quoted filter value, storing plain eth0. -/
theorem C8_quoted_value_stripped :
    parseX "intf[name='eth0']" =
      .ok ⟨Option.none, [⟨"intf", [("name", "eth0")]⟩]⟩ := by
  rfl

/-- C6 counterexample: the claim says "intf[a" fails with UnterminatedXPath.
It fails with HangingKeyFilter instead: the pending-key check
('if curr_key:') precedes the open-filter check in the code's
finalization. -/
theorem C6_counterexample :
    parseX "intf[a" = .error .HangingKeyFilter ∧
    ParseError.HangingKeyFilter ≠ ParseError.UnterminatedXPath := by
  exact ⟨rfl, by decide⟩

/-- C6 amended: "intf[a" (open filter with a pending key name) fails with
HangingKeyFilter, since the pending-key check runs first; an open filter
with no pending key, such as "intf[", fails with UnterminatedXPath. -/
theorem C6_amended_theorem :
    parseX "intf[a" = .error .HangingKeyFilter ∧
    parseX "intf[" = .error .UnterminatedXPath := by
  exact ⟨rfl, rfl⟩

/-- C9 counterexample: the claim says every supplied non-string origin
fails with InvalidInput.  A falsy non-string origin (here the integer 0) is
accepted and ignored, because the isinstance check is guarded by
'if origin:'. -/
theorem C9_counterexample :
    parse_xpath_to_gnmi_path (.str "a") (.int 0) =
      .ok ⟨Option.none, [⟨"a", []⟩]⟩ ∧
    PyValue.isStr (.int 0) = false := by
  exact ⟨rfl, rfl⟩

/-- C9 amended: a non-string xpath always fails with InvalidInput (for any
origin), and a supplied non-string origin fails with InvalidInput exactly
when it is truthy; a falsy origin of any type is treated as absent. -/
theorem C9_amended_theorem (v o : PyValue)
    (h : v.isStr = false ∨ (o.truthy = true ∧ o.isStr = false)) :
    parse_xpath_to_gnmi_path v o = .error .InvalidInput ∧
    (∀ s : String, o.truthy = false →
      parse_xpath_to_gnmi_path (.str s) o =
        parse_xpath_to_gnmi_path (.str s) .pyNone) := by
  have hstr : ∀ xs : String, parse_xpath_to_gnmi_path (.str xs) o =
      if o.truthy = true ∧ o.isStr = false then .error .InvalidInput
      else parseBody xs (originOf o) := fun _ => rfl
  constructor
  · rcases h with h | ⟨ht, hs⟩
    · cases v with
      | str s => simp [PyValue.isStr] at h
      | int n => rfl
      | bool b => rfl
      | pyNone => rfl
    · cases v with
      | str s => rw [hstr, if_pos ⟨ht, hs⟩]
      | int n => rfl
      | bool b => rfl
      | pyNone => rfl
  · intro s ht
    have hog : originOf o = Option.none := by
      cases o with
      | str os =>
        have : os = "" := by
          by_contra hne
          simp [PyValue.truthy, hne] at ht
        simp [originOf, this]
      | int n => rfl
      | bool b => rfl
      | pyNone => rfl
    rw [hstr, if_neg (by simp [ht]), hog]
    rfl

/-- C9 witness: the amended theorem applied at concrete inputs, a
non-string xpath with a falsy non-string origin. -/
theorem C9_amended_witness :
    parse_xpath_to_gnmi_path (.int 3) (.int 0) = .error .InvalidInput :=
  (C9_amended_theorem (.int 3) (.int 0) (Or.inl rfl)).1

/-- C10: a ']' token is accepted in every parser state and simply clears
in_filter; an unmatched closing bracket such as in "intf]x" never fails a
parse by itself. -/
theorem C10_closing_bracket_harmless (s : PState) :
    step s ("]", "") = .ok { s with in_filter := false } ∧
    parseX "intf]x" = .ok ⟨Option.none, [⟨"x", []⟩]⟩ := by
  constructor
  · simp [step]
  · rfl

/-- C10 witness: the theorem applied at the initial state. -/
theorem C10_witness :
    step initState ("]", "") = .ok { initState with in_filter := false } ∧
    parseX "intf]x" = .ok ⟨Option.none, [⟨"x", []⟩]⟩ :=
  C10_closing_bracket_harmless initState

/-- C7: parsing "intf[a=1][a=2]" fails with DuplicateKey, and in general,
whenever the loop reaches the value-completing branch with a pending key
that is already present in the current element's key map, it aborts with
DuplicateKey rather than overwriting the earlier value.  The hypotheses
spell out the guards of the elif chain leading to that branch. -/
theorem C7_duplicate_key_theorem (s : PState) (k d t : String)
    (hfil : s.in_filter = true)
    (hkey : s.curr_key = some k)
    (hd1 : d ≠ "/") (hd2 : d ≠ "[") (hd3 : d ≠ "]")
    (hblank : ¬(d = "" ∧ t = ""))
    (hand : ¬(s.just_filtered = true ∧ t = "and"))
    (hop1 : d ≠ ">") (hop2 : d ≠ "<") (hop3 : d ≠ "=")
    (hdup : s.curr.key.any (fun p => p.1 = k) = true) :
    step s (d, t) = .error .DuplicateKey ∧
    parseX "intf[a=1][a=2]" = .error .DuplicateKey := by
  refine ⟨?_, rfl⟩
  simp [step, hfil, hkey, hd1, hd2, hd3, eq_false hblank, eq_false hand,
    hop1, hop2, hop3, hdup]

/-- C7 witness: the theorem applied at the state reached inside the second
filter of "intf[a=1][a=2]" just before the value token for the repeated
key. -/
theorem C7_duplicate_key_witness :
    step ⟨[], ⟨"intf", [("a", "")]⟩, true, true, some "a"⟩ ("", "2") =
      .error .DuplicateKey ∧
    parseX "intf[a=1][a=2]" = .error .DuplicateKey :=
  C7_duplicate_key_theorem ⟨[], ⟨"intf", [("a", "")]⟩, true, true, some "a"⟩
    "a" "" "2" rfl rfl (by decide) (by decide) (by decide) (by decide)
    (by decide) (by decide) (by decide) (by decide) (by decide)

end CiscoGnmi

namespace CiscoGnmi

/-- Helper: membership in a cons token list splits into the head token or
the tail. -/
lemma mem_cons_tok {p tok : Token} {l : List Token}
    (hp : p ∈ tok :: l) (htok : tok.1 ≠ ">" ∧ tok.1 ≠ "<")
    (hl : ∀ q ∈ l, q.1 ≠ ">" ∧ q.1 ≠ "<") : p.1 ≠ ">" ∧ p.1 ≠ "<" := by
  rcases List.mem_cons.mp hp with rfl | hm
  · exact htok
  · exact hl _ hm

/-- Helper for literal first components. -/
lemma pair_fst_ne (a b : String) (h1 : a ≠ ">") (h2 : a ≠ "<") :
    ((a, b) : Token).1 ≠ ">" ∧ ((a, b) : Token).1 ≠ "<" := ⟨h1, h2⟩

/-- A string starting with a character other than the angle brackets is
neither ">" nor "<". -/
lemma mk_cons_ne_gtlt (c : Char) (l : List Char) (h1 : c ≠ '>') (h2 : c ≠ '<') :
    String.mk (c :: l) ≠ ">" ∧ String.mk (c :: l) ≠ "<" := by
  constructor <;> intro h
  · exact h1 (by have := congrArg String.data h; simp_all)
  · exact h2 (by have := congrArg String.data h; simp_all)

/-- No token produced by the tokenizer carries ">" or "<" in its first
(delimiter) component: neither character appears in the regex's delimiter
alternatives, both are ordinary members of the bare-text class. -/
lemma tokGo_fst_ne : ∀ (fuel : Nat) (cs : List Char) (p : Token),
    p ∈ tokGo fuel cs → p.1 ≠ ">" ∧ p.1 ≠ "<" := by
  intro fuel
  induction fuel with
  | zero => intro cs p hp; simp [tokGo] at hp
  | succ f ih =>
    intro cs p hp
    cases cs with
    | nil => simp [tokGo] at hp
    | cons c rest =>
      simp only [tokGo] at hp
      by_cases h1 : c = '\'' ∨ c = '"'
      · rw [if_pos h1] at hp
        split at hp
        · exact mem_cons_tok hp
            (mk_cons_ne_gtlt c _ (by rcases h1 with rfl | rfl <;> decide)
              (by rcases h1 with rfl | rfl <;> decide))
            fun q hq => ih _ q hq
        · exact mem_cons_tok hp (pair_fst_ne _ _ (by decide) (by decide))
            fun q hq => ih _ q hq
      · rw [if_neg h1] at hp
        by_cases h2 : c = ':'
        · rw [if_pos h2] at hp
          split at hp
          · split at hp <;>
              exact mem_cons_tok hp (pair_fst_ne _ _ (by decide) (by decide))
                fun q hq => ih _ q hq
          · exact mem_cons_tok hp (pair_fst_ne _ _ (by decide) (by decide))
              fun q hq => ih _ q hq
        · rw [if_neg h2] at hp
          by_cases h3 : c = '/'
          · rw [if_pos h3] at hp
            split at hp
            · split at hp <;>
                exact mem_cons_tok hp (pair_fst_ne _ _ (by decide) (by decide))
                  fun q hq => ih _ q hq
            · exact mem_cons_tok hp (pair_fst_ne _ _ (by decide) (by decide))
                fun q hq => ih _ q hq
          · rw [if_neg h3] at hp
            by_cases h4 : c = '.'
            · rw [if_pos h4] at hp
              split at hp
              · split at hp <;>
                  exact mem_cons_tok hp (pair_fst_ne _ _ (by decide) (by decide))
                    fun q hq => ih _ q hq
              · exact mem_cons_tok hp (pair_fst_ne _ _ (by decide) (by decide))
                  fun q hq => ih _ q hq
            · rw [if_neg h4] at hp
              by_cases h5 : c = '('
              · rw [if_pos h5] at hp
                split at hp
                · split at hp <;>
                    exact mem_cons_tok hp
                      (pair_fst_ne _ _ (by decide) (by decide))
                      fun q hq => ih _ q hq
                · exact mem_cons_tok hp (pair_fst_ne _ _ (by decide) (by decide))
                    fun q hq => ih _ q hq
              · rw [if_neg h5] at hp
                by_cases h6 : c = '!'
                · rw [if_pos h6] at hp
                  split at hp
                  · split at hp
                    · exact mem_cons_tok hp
                        (pair_fst_ne _ _ (by decide) (by decide))
                        fun q hq => ih _ q hq
                    · exact ih _ _ hp
                  · exact ih _ _ hp
                · rw [if_neg h6] at hp
                  by_cases h7 : c = '*' ∨ c = '[' ∨ c = ']' ∨ c = ')' ∨
                      c = '@' ∨ c = '='
                  · rw [if_pos h7] at hp
                    exact mem_cons_tok hp
                      (mk_cons_ne_gtlt c _
                        (by rcases h7 with rfl | rfl | rfl | rfl | rfl | rfl <;>
                          decide)
                        (by rcases h7 with rfl | rfl | rfl | rfl | rfl | rfl <;>
                          decide))
                      fun q hq => ih _ q hq
                  · rw [if_neg h7] at hp
                    by_cases h8 : c = '{'
                    · rw [if_pos h8] at hp
                      split at hp
                      · split at hp <;>
                          exact mem_cons_tok hp
                            (pair_fst_ne _ _ (by decide) (by decide))
                            fun q hq => ih _ q hq
                      · exact mem_cons_tok hp
                          (pair_fst_ne _ _ (by decide) (by decide))
                          fun q hq => ih _ q hq
                    · rw [if_neg h8] at hp
                      by_cases h9 : textChar c = true
                      · rw [if_pos h9] at hp
                        exact mem_cons_tok hp
                          (pair_fst_ne _ _ (by decide) (by decide))
                          fun q hq => ih _ q hq
                      · rw [if_neg h9] at hp
                        by_cases h10 : isPySpace c = true
                        · rw [if_pos h10] at hp
                          exact mem_cons_tok hp
                            (pair_fst_ne _ _ (by decide) (by decide))
                            fun q hq => ih _ q hq
                        · rw [if_neg h10] at hp
                          exact ih _ _ hp

/-- The only raise of UnsupportedOperator sits under the test
element[0] in [">", "<"], so a step on any other token cannot produce it. -/
lemma step_ne_unsup (s : PState) (d t : String) (h1 : d ≠ ">") (h2 : d ≠ "<") :
    step s (d, t) ≠ .error .UnsupportedOperator := by
  intro h
  cases hc : s.curr_key with
  | none =>
    simp only [step, hc] at h
    split_ifs at h
    all_goals simp_all
  | some k =>
    simp only [step, hc] at h
    split_ifs at h
    all_goals simp_all

/-- The finalization raises only HangingKeyFilter or UnterminatedXPath. -/
lemma finalize_ne_unsup (s : PState) :
    finalize s ≠ .error .UnsupportedOperator := by
  intro h
  unfold finalize at h
  split_ifs at h
  · simp_all
  · simp_all

/-- Folding step over tokens whose first component is never an angle
bracket cannot produce UnsupportedOperator. -/
lemma runTokens_ne_unsup : ∀ (ts : List Token) (s : PState),
    (∀ q ∈ ts, q.1 ≠ ">" ∧ q.1 ≠ "<") →
    runTokens s ts ≠ .error .UnsupportedOperator := by
  intro ts
  induction ts with
  | nil => intro s _ hcon; simp [runTokens] at hcon
  | cons t rest ih =>
    intro s h hcon
    rcases t with ⟨d, tt⟩
    have hd := h (d, tt) (List.mem_cons_self _ _)
    unfold runTokens at hcon
    cases hstep : step s (d, tt) with
    | error e =>
      rw [hstep] at hcon
      have he : e = .UnsupportedOperator := by injection hcon
      exact step_ne_unsup s d tt hd.1 hd.2 (he ▸ hstep)
    | ok s2 =>
      rw [hstep] at hcon
      exact ih s2 (fun q hq => h q (List.mem_cons_of_mem _ hq)) hcon

/-- parseBody either propagates an error of the loop, or an error of the
finalization, or succeeds with the finalized elements. -/
lemma parseBody_split (xs : String) (og : Option String) :
    (∃ e, runTokens initState (xpathTokenize (stripSlashes xs).data) =
        .error e ∧ parseBody xs og = .error e) ∨
    (∃ s e, runTokens initState (xpathTokenize (stripSlashes xs).data) =
        .ok s ∧ finalize s = .error e ∧ parseBody xs og = .error e) ∨
    (∃ s es, runTokens initState (xpathTokenize (stripSlashes xs).data) =
        .ok s ∧ finalize s = .ok es ∧ parseBody xs og = .ok ⟨og, es⟩) := by
  unfold parseBody
  cases hrun : runTokens initState (xpathTokenize (stripSlashes xs).data) with
  | error e => exact Or.inl ⟨e, rfl, rfl⟩
  | ok s =>
    cases hfin : finalize s with
    | error e => exact Or.inr (Or.inl ⟨s, e, rfl, hfin, by simp only [hfin]⟩)
    | ok es => exact Or.inr (Or.inr ⟨s, es, rfl, hfin, by simp only [hfin]⟩)

/-- No input at all can make the parser fail with UnsupportedOperator. -/
lemma parse_ne_unsup (x o : PyValue) :
    parse_xpath_to_gnmi_path x o ≠ .error .UnsupportedOperator := by
  cases x with
  | int n => simp [parse_xpath_to_gnmi_path]
  | bool b => simp [parse_xpath_to_gnmi_path]
  | pyNone => simp [parse_xpath_to_gnmi_path]
  | str xs =>
    have hstr : parse_xpath_to_gnmi_path (.str xs) o =
        if o.truthy = true ∧ o.isStr = false then .error .InvalidInput
        else parseBody xs (originOf o) := rfl
    rw [hstr]
    split_ifs with hif
    · simp
    · rcases parseBody_split xs (originOf o) with ⟨e, hrun, hpb⟩ |
        ⟨s, e, hrun, hfin, hpb⟩ | ⟨s, es, hrun, hfin, hpb⟩ <;> rw [hpb]
      · intro hcon
        have he : e = .UnsupportedOperator := by injection hcon
        exact runTokens_ne_unsup _ initState
          (fun q hq => tokGo_fst_ne _ _ q hq) (he ▸ hrun)
      · intro hcon
        have he : e = .UnsupportedOperator := by injection hcon
        exact finalize_ne_unsup s (he ▸ hfin)
      · simp

/-- C5: the claim says "intf[rate>5]" fails with UnsupportedOperator.  It
fails with HangingKeyFilter: the tokenizer never emits '>' or '<' as a
delimiter token (both are ordinary text characters of its regex), so
"rate>5" becomes a single pending key name, and the code's
element[0] in [">", "<"] guard is unreachable: no input whatsoever can
produce UnsupportedOperator. -/
theorem C5_unsupported_operator_unreachable :
    parseX "intf[rate>5]" = .error .HangingKeyFilter ∧
    ∀ (x o : PyValue),
      parse_xpath_to_gnmi_path x o ≠ .error .UnsupportedOperator :=
  ⟨rfl, parse_ne_unsup⟩

/-- C5 witness: the unreachability applied at the claim's own input. -/
theorem C5_witness :
    parseX "intf[rate>5]" ≠ .error .UnsupportedOperator :=
  C5_unsupported_operator_unreachable.2 (.str "intf[rate>5]") .pyNone

end CiscoGnmi

namespace CiscoGnmi

/-- The name class of claim C2 exactly as the claim words it ("no brackets,
no quotes, no whitespace, no operators", joined by single slashes): a
nonempty string avoiding brackets, braces, parens, quote characters, the
comparison operators, the slash and whitespace. -/
def specSimpleName (s : String) : Prop :=
  s ≠ "" ∧ ∀ c ∈ s.data,
    ¬(c = '[' ∨ c = ']' ∨ c = '(' ∨ c = ')' ∨ c = '{' ∨ c = '}' ∨
      c = '\'' ∨ c = '"' ∨ c = '=' ∨ c = '<' ∨ c = '>' ∨ c = '/' ∨
      isPySpace c = true)

/-- A safe first character for a name segment: in the bare-text class and
not one of the characters that start a delimiter alternative or the quoted
or braced alternatives of the tokenizer. -/
def goodFirst (c : Char) : Prop :=
  textCharP c ∧ c ≠ '\'' ∧ c ≠ '"' ∧ c ≠ ':' ∧ c ≠ '.' ∧ c ≠ '*' ∧ c ≠ '{'

/-- A name that the tokenizer scans as one single text token wherever it is
delimited by slashes: nonempty, safe first character, all characters in the
bare-text class. -/
def goodChars : List Char → Prop
  | [] => False
  | c :: cs => goodFirst c ∧ ∀ d ∈ cs, textCharP d

instance (c : Char) : Decidable (goodFirst c) := by
  unfold goodFirst; infer_instance

instance goodCharsDec : (l : List Char) → Decidable (goodChars l)
  | [] => isFalse fun h => h
  | c :: cs => inferInstanceAs (Decidable (goodFirst c ∧ ∀ d ∈ cs, textCharP d))

/-- goodChars, on a string. -/
def goodName (s : String) : Prop := goodChars s.data

instance (s : String) : Decidable (goodName s) := goodCharsDec s.data

/-- The input of claim C2: names joined by single '/' characters. -/
def joined : List String → String
  | [] => ""
  | [n] => n
  | n :: m :: r => n ++ "/" ++ joined (m :: r)

/-- The token stream the tokenizer produces on such an input: one text
token per name, single-slash delimiter tokens in between. -/
def nameToks : List String → List Token
  | [] => []
  | [n] => [("", n)]
  | n :: m :: r => ("", n) :: ("/", "") :: nameToks (m :: r)

/-- The expected parse result: one element per name, no keys. -/
def elemsOf (ns : List String) : List PathElem := ns.map fun n => ⟨n, []⟩

/-- The last name of the segment list (the element still in curr_elem when
input ends). -/
def lastStr : List String → String
  | [] => ""
  | [n] => n
  | _ :: m :: r => lastStr (m :: r)

lemma tokGo_nil_any (f : Nat) : tokGo f [] = [] := by cases f <;> rfl

lemma takeWhile_append_all (p : Char → Bool) (l1 l2 : List Char)
    (h1 : ∀ c ∈ l1, p c = true) (h2 : l2.takeWhile p = []) :
    (l1 ++ l2).takeWhile p = l1 := by
  induction l1 with
  | nil => simpa using h2
  | cons c cs ih =>
    have hc : p c = true := h1 c (List.mem_cons_self _ _)
    simp only [List.cons_append, List.takeWhile_cons, hc, if_true]
    rw [ih fun d hd => h1 d (List.mem_cons_of_mem _ hd)]

lemma dropWhile_append_all (p : Char → Bool) (l1 l2 : List Char)
    (h1 : ∀ c ∈ l1, p c = true) (h2 : l2.dropWhile p = l2) :
    (l1 ++ l2).dropWhile p = l2 := by
  induction l1 with
  | nil => simpa using h2
  | cons c cs ih =>
    have hc : p c = true := h1 c (List.mem_cons_self _ _)
    simp only [List.cons_append, List.dropWhile_cons, hc, if_true]
    exact ih fun d hd => h1 d (List.mem_cons_of_mem _ hd)

lemma goodName_data (n : String) (h : goodName n) :
    ∃ c cs, n.data = c :: cs ∧ goodFirst c ∧ ∀ d ∈ cs, textCharP d := by
  unfold goodName at h
  rcases hd : n.data with _ | ⟨c, cs⟩
  · rw [hd] at h; exact h.elim
  · rw [hd] at h; exact ⟨c, cs, rfl, h.1, h.2⟩

lemma goodName_ne_empty (n : String) (h : goodName n) : n ≠ "" := by
  obtain ⟨c, cs, hd, -, -⟩ := goodName_data n h
  intro he
  rw [he] at hd
  exact List.noConfusion hd

/-- Scanning from a safe first character always takes the text-run branch
of the tokenizer. -/
lemma tokGo_text_step (f : Nat) (c : Char) (rest : List Char)
    (h : goodFirst c) :
    tokGo (f + 1) (c :: rest) =
      ("", String.mk (c :: rest.takeWhile textChar)) ::
        tokGo f (rest.dropWhile textChar) := by
  obtain ⟨ht, hq1, hq2, hcol, hdot, hstar, hbrace⟩ := h
  have ht' := ht
  unfold textCharP at ht'
  push_neg at ht'
  obtain ⟨hs1, hs2, hs3, hs4, hs5, hs6, hs7, hs8, hs9⟩ := ht'
  simp only [tokGo]
  rw [if_neg (by tauto), if_neg hcol, if_neg hs1, if_neg hdot, if_neg hs4,
    if_neg hs7, if_neg (by tauto), if_neg hbrace,
    if_pos (show textChar c = true from decide_eq_true ht)]

end CiscoGnmi

namespace CiscoGnmi

/-- A whole good name followed by nothing or by a slash is scanned as one
single text token. -/
lemma tokGo_name_chunk (f : Nat) (c : Char) (cs tail : List Char)
    (hc : goodFirst c) (hcs : ∀ d ∈ cs, textCharP d)
    (ht1 : tail.takeWhile textChar = [])
    (ht2 : tail.dropWhile textChar = tail) :
    tokGo (f + 1) (c :: (cs ++ tail)) =
      ("", String.mk (c :: cs)) :: tokGo f tail := by
  rw [tokGo_text_step f c (cs ++ tail) hc,
    takeWhile_append_all textChar cs tail
      (fun d hd => decide_eq_true (hcs d hd)) ht1,
    dropWhile_append_all textChar cs tail
      (fun d hd => decide_eq_true (hcs d hd)) ht2]

/-- A slash not followed by a second slash is scanned as a single '/'
delimiter token. -/
lemma tokGo_slash (f : Nat) (d : Char) (r : List Char) (hd : d ≠ '/') :
    tokGo (f + 1) ('/' :: d :: r) = ("/", "") :: tokGo f (d :: r) := by
  simp [tokGo, hd]

lemma joined_data_cons (n m : String) (r : List String) :
    (joined (n :: m :: r)).data = n.data ++ '/' :: (joined (m :: r)).data := by
  show (n ++ "/" ++ joined (m :: r)).data = _
  simp [String.data_append]

lemma joined_head (ns : List String) (hne : ns ≠ [])
    (hg : ∀ n ∈ ns, goodName n) :
    ∃ c r, (joined ns).data = c :: r ∧ goodFirst c := by
  cases ns with
  | nil => exact absurd rfl hne
  | cons n tail =>
    obtain ⟨c, cs, hdata, hfirst, -⟩ :=
      goodName_data n (hg n (List.mem_cons_self _ _))
    cases tail with
    | nil => exact ⟨c, cs, hdata, hfirst⟩
    | cons m r =>
      refine ⟨c, cs ++ '/' :: (joined (m :: r)).data, ?_, hfirst⟩
      rw [joined_data_cons, hdata]
      rfl

lemma joined_rev_head : ∀ (ns : List String), ns ≠ [] →
    (∀ n ∈ ns, goodName n) →
    ∃ c r, (joined ns).data.reverse = c :: r ∧ textCharP c := by
  intro ns
  induction ns with
  | nil => intro h; exact absurd rfl h
  | cons n tail ih =>
    intro _ hg
    cases tail with
    | nil =>
      obtain ⟨c, cs, hdata, hfirst, hrest⟩ :=
        goodName_data n (hg n (List.mem_cons_self _ _))
      rcases hrev : (joined [n]).data.reverse with _ | ⟨x, xr⟩
      · rw [List.reverse_eq_nil_iff] at hrev
        rw [show joined [n] = n from rfl, hdata] at hrev
        exact List.noConfusion hrev
      · refine ⟨x, xr, rfl, ?_⟩
        have hx : x ∈ (joined [n]).data := by
          rw [← List.mem_reverse, hrev]
          exact List.mem_cons_self _ _
        rw [show joined [n] = n from rfl, hdata] at hx
        rcases List.mem_cons.mp hx with rfl | hm
        · exact hfirst.1
        · exact hrest x hm
    | cons m r =>
      obtain ⟨c, jr, hrev, hc⟩ := ih (by simp)
        (fun q hq => hg q (List.mem_cons_of_mem _ hq))
      refine ⟨c, jr ++ '/' :: n.data.reverse, ?_, hc⟩
      rw [joined_data_cons, List.reverse_append, List.reverse_cons,
        List.append_assoc, hrev]
      rfl

lemma dropWhile_eq_self_of_head (p : Char → Bool) (l : List Char)
    (h : ∀ c, l.head? = some c → p c = false) : l.dropWhile p = l := by
  cases l with
  | nil => rfl
  | cons c cs => simp [List.dropWhile_cons, h c rfl]

/-- On an input made of good names joined by slashes, the strip of leading
and trailing slashes is the identity. -/
lemma strip_joined (ns : List String) (hne : ns ≠ [])
    (hg : ∀ n ∈ ns, goodName n) :
    stripSlashes (joined ns) = joined ns := by
  obtain ⟨c, r, hdata, hfirst⟩ := joined_head ns hne hg
  obtain ⟨c2, r2, hrev, hc2⟩ := joined_rev_head ns hne hg
  have hne1 : c ≠ '/' := fun h => hfirst.1 (Or.inl h)
  have hne2 : c2 ≠ '/' := fun h => hc2 (Or.inl h)
  unfold stripSlashes pyStrip
  rw [dropWhile_eq_self_of_head _ (joined ns).data (fun x hx => by
        rw [hdata] at hx
        have hxc : c = x := by simpa using hx
        exact decide_eq_false (hxc ▸ hne1)),
    dropWhile_eq_self_of_head _ (joined ns).data.reverse (fun x hx => by
        rw [hrev] at hx
        have hxc : c2 = x := by simpa using hx
        exact decide_eq_false (hxc ▸ hne2)),
    List.reverse_reverse]

end CiscoGnmi

namespace CiscoGnmi

/-- On good names joined by single slashes, the tokenizer yields exactly
one text token per name with single-slash delimiter tokens in between. -/
lemma tokGo_joined : ∀ (ns : List String), (∀ n ∈ ns, goodName n) →
    ns ≠ [] → ∀ f, (joined ns).data.length < f →
    tokGo f (joined ns).data = nameToks ns := by
  intro ns
  induction ns with
  | nil => intro _ h; exact absurd rfl h
  | cons n tail ih =>
    intro hg _ f hf
    obtain ⟨c, cs, hdata, hfirst, hrest⟩ :=
      goodName_data n (hg n (List.mem_cons_self _ _))
    cases tail with
    | nil =>
      rw [show joined [n] = n from rfl] at hf ⊢
      rw [hdata] at hf ⊢
      obtain ⟨f1, rfl⟩ : ∃ f1, f = f1 + 1 := ⟨f - 1, by omega⟩
      rw [show (c :: cs : List Char) = c :: (cs ++ []) from by simp]
      rw [tokGo_name_chunk f1 c cs [] hfirst hrest rfl rfl, tokGo_nil_any]
      rw [show nameToks [n] = [("", n)] from rfl]
      rw [show String.mk (c :: cs) = n from by rw [← hdata]]
    | cons m r =>
      have hgtail : ∀ q ∈ m :: r, goodName q :=
        fun q hq => hg q (List.mem_cons_of_mem _ hq)
      obtain ⟨d, jr, hjd, hdfirst⟩ := joined_head (m :: r) (by simp) hgtail
      have hlen : (joined (n :: m :: r)).data.length =
          n.data.length + 1 + (joined (m :: r)).data.length := by
        rw [joined_data_cons]; simp; omega
      have hn1 : 1 ≤ n.data.length := by rw [hdata]; simp
      obtain ⟨f1, rfl⟩ : ∃ f1, f = f1 + 1 := ⟨f - 1, by omega⟩
      obtain ⟨f2, rfl⟩ : ∃ f2, f1 = f2 + 1 := by
        refine ⟨f1 - 1, ?_⟩
        rw [hlen] at hf
        omega
      rw [joined_data_cons, hdata]
      rw [show (c :: cs : List Char) ++ '/' :: (joined (m :: r)).data =
        c :: (cs ++ '/' :: (joined (m :: r)).data) from rfl]
      rw [tokGo_name_chunk (f2 + 1) c cs ('/' :: (joined (m :: r)).data)
        hfirst hrest (by simp [List.takeWhile_cons, textChar, textCharP])
        (by simp [List.dropWhile_cons, textChar, textCharP])]
      rw [hjd]
      rw [tokGo_slash f2 d jr (fun h => hdfirst.1 (Or.inl h))]
      rw [← hjd]
      rw [ih hgtail (by simp) f2 (by rw [hlen, hdata] at hf; simp at hf ⊢; omega)]
      rw [show String.mk (c :: cs) = n from by rw [← hdata]]
      rfl

/-- Folding the loop over such a token stream builds one keyless element
per name, leaving the last name in curr_elem. -/
lemma runTokens_names : ∀ (ns : List String), (∀ n ∈ ns, goodName n) →
    ns ≠ [] → ∀ (elems : List PathElem) (jf : Bool),
    runTokens ⟨elems, ⟨"", []⟩, false, jf, Option.none⟩ (nameToks ns) =
      .ok ⟨elems ++ elemsOf ns.dropLast, ⟨lastStr ns, []⟩, false, jf,
        Option.none⟩ := by
  intro ns
  induction ns with
  | nil => intro _ h; exact absurd rfl h
  | cons n tail ih =>
    intro hg _ elems jf
    cases tail with
    | nil =>
      show runTokens _ [("", n)] = _
      have h1 : step ⟨elems, ⟨"", []⟩, false, jf, Option.none⟩ ("", n) =
          .ok ⟨elems, ⟨n, []⟩, false, jf, Option.none⟩ := by
        simp [step]
      simp [runTokens, h1, elemsOf, lastStr]
    | cons m r =>
      have hn0 : n ≠ "" := goodName_ne_empty n (hg n (List.mem_cons_self _ _))
      show runTokens _ (("", n) :: ("/", "") :: nameToks (m :: r)) = _
      have h1 : step ⟨elems, ⟨"", []⟩, false, jf, Option.none⟩ ("", n) =
          .ok ⟨elems, ⟨n, []⟩, false, jf, Option.none⟩ := by
        simp [step]
      have h2 : step ⟨elems, ⟨n, []⟩, false, jf, Option.none⟩ ("/", "") =
          .ok ⟨elems ++ [⟨n, []⟩], ⟨"", []⟩, false, jf, Option.none⟩ := by
        simp [step, hn0]
      rw [show runTokens (⟨elems, ⟨"", []⟩, false, jf, Option.none⟩ : PState)
          (("", n) :: ("/", "") :: nameToks (m :: r)) =
        runTokens (⟨elems ++ [⟨n, []⟩], ⟨"", []⟩, false, jf, Option.none⟩ :
          PState) (nameToks (m :: r)) from by
          simp [runTokens, h1, h2]]
      rw [ih (fun q hq => hg q (List.mem_cons_of_mem _ hq)) (by simp)]
      rw [show (n :: m :: r).dropLast = n :: (m :: r).dropLast from rfl]
      rw [show lastStr (n :: m :: r) = lastStr (m :: r) from rfl]
      rw [show elemsOf (n :: (m :: r).dropLast) =
        ⟨n, []⟩ :: elemsOf (m :: r).dropLast from rfl]
      simp

/-- Appending the dangling last element completes the expected element
list. -/
lemma elems_decomp : ∀ (ns : List String), ns ≠ [] →
    elemsOf ns.dropLast ++ [⟨lastStr ns, []⟩] = elemsOf ns := by
  intro ns
  induction ns with
  | nil => intro h; exact absurd rfl h
  | cons n tail ih =>
    intro _
    cases tail with
    | nil => rfl
    | cons m r =>
      rw [show (n :: m :: r).dropLast = n :: (m :: r).dropLast from rfl,
        show elemsOf (n :: (m :: r).dropLast) =
          ⟨n, []⟩ :: elemsOf (m :: r).dropLast from rfl,
        show lastStr (n :: m :: r) = lastStr (m :: r) from rfl,
        List.cons_append, ih (by simp)]
      rfl

/-- C2 amended: the claim holds once the name alphabet is restricted to the
tokenizer's bare-text class with a safe first character: parsing good names
joined by single slashes yields exactly one element per name, in order,
named by its segment, with empty keys. -/
theorem C2_simple_names_theorem (ns : List String) (h1 : ns ≠ [])
    (h2 : ∀ n ∈ ns, goodName n) :
    parseX (joined ns) = .ok ⟨Option.none, elemsOf ns⟩ := by
  have hparse : parseX (joined ns) = parseBody (joined ns) Option.none := rfl
  rw [hparse]
  unfold parseBody
  rw [strip_joined ns h1 h2]
  rw [show xpathTokenize (joined ns).data = nameToks ns from
    tokGo_joined ns h2 h1 _ (Nat.lt_succ_self _)]
  rw [show initState = (⟨[], ⟨"", []⟩, false, false, Option.none⟩ : PState)
    from rfl]
  rw [runTokens_names ns h2 h1 [] false]
  have hfin : finalize ⟨[] ++ elemsOf ns.dropLast, ⟨lastStr ns, []⟩, false,
      false, Option.none⟩ = .ok (elemsOf ns) := by
    unfold finalize
    rw [if_neg (by simp [keyTruthy]), if_neg (by simp)]
    simp only [List.nil_append]
    rw [elems_decomp ns h1]
  simp only [hfin]

instance (s : String) : Decidable (specSimpleName s) := by
  unfold specSimpleName; infer_instance

/-- C2 counterexample: under the claim's own alphabet ("no brackets, no
quotes, no whitespace, no operators") the segment "." is a simple name,
yet "a/./c" aborts with IncompleteElement, because a segment-initial '.'
is a delimiter token of the tokenizer and resets the pending element name
to the empty string. -/
theorem C2_counterexample :
    specSimpleName "a" ∧ specSimpleName "." ∧ specSimpleName "c" ∧
    joined ["a", ".", "c"] = "a/./c" ∧
    parseX "a/./c" = .error .IncompleteElement := by
  refine ⟨by decide, by decide, by decide, rfl, rfl⟩

/-- C2 witness: the amended theorem applied to a concrete segment list. -/
theorem C2_witness :
    parseX (joined ["interfaces", "interface", "state"]) =
      .ok ⟨Option.none, elemsOf ["interfaces", "interface", "state"]⟩ :=
  C2_simple_names_theorem ["interfaces", "interface", "state"] (by decide)
    (by decide)

end CiscoGnmi
